import Mathlib

/-!
Verification of the liturgical-calendar engine in `src/src/main.rs`.

Dates are embedded as day counts since 1970-01-01 in the proleptic Gregorian
calendar (the representation underlying `chrono::NaiveDate`).  `toDay` is the
standard civil-from-days construction; it is total, and on every valid
calendar date it agrees with `chrono::NaiveDate::from_ymd`.  Rust `i32`
division and remainder truncate toward zero, so they are embedded as
`Int.tdiv` / `Int.tmod`; `i32::rem_euclid` is `Int.emod` (`%`).
-/

namespace LitCal

/-- Day count since 1970-01-01 of the proleptic-Gregorian date (y, m, d);
the canonical civil-from-days formula.  Models the day number stored inside
`chrono::NaiveDate` as built by `NaiveDate::from_ymd(y, m, d)`. -/
def toDay (y m d : Int) : Int :=
  let yAdj := if m ≤ 2 then y - 1 else y
  let era := yAdj / 400
  let yoe := yAdj - era * 400
  let mp := if m ≤ 2 then m + 9 else m - 3
  let doy := (153 * mp + 2) / 5 + d - 1
  let doe := yoe * 365 + yoe / 4 - yoe / 100 + doy
  era * 146097 + doe - 719468

/-- Models `date.weekday().num_days_from_sunday()` for the date with day
count `t`: 1970-01-01 (day 0) was a Thursday, hence offset 4. -/
def daysFromSunday (t : Int) : Int := (t + 4) % 7

/-- `first_sunday_of_advent` from src/src/main.rs (lines 34-38): the first
Sunday on or after November 21 of `year`, via a weekday offset. -/
def first_sunday_of_advent (year : Int) : Int :=
  let candidate := toDay year 11 21
  let offset := (7 - daysFromSunday candidate) % 7
  candidate + offset

/-- Fuel-indexed unfolding of the `while date.weekday() != Weekday::Sun`
loop in `first_sunday_on_or_after` (src/src/main.rs lines 41-46); the loop
advances one day at a time and a Sunday occurs within any 7 consecutive
days, so fuel 7 suffices. -/
def first_sunday_on_or_after_go : Nat → Int → Int
  | 0, t => t
  | n + 1, t => if daysFromSunday t = 0 then t else first_sunday_on_or_after_go n (t + 1)

/-- `first_sunday_on_or_after` from src/src/main.rs (lines 41-46). -/
def first_sunday_on_or_after (t : Int) : Int := first_sunday_on_or_after_go 7 t

/-- Local `a` of `compute_easter` (line 50). -/
def easter_a (year : Int) : Int := year.tmod 19

/-- Local `b` of `compute_easter` (line 51). -/
def easter_b (year : Int) : Int := year.tdiv 100

/-- Local `c` of `compute_easter` (line 52). -/
def easter_c (year : Int) : Int := year.tmod 100

/-- Local `d` of `compute_easter` (line 53). -/
def easter_d (year : Int) : Int := (easter_b year).tdiv 4

/-- Local `e` of `compute_easter` (line 54). -/
def easter_e (year : Int) : Int := (easter_b year).tmod 4

/-- Local `f` of `compute_easter` (line 55). -/
def easter_f (year : Int) : Int := (easter_b year + 8).tdiv 25

/-- Local `g` of `compute_easter` (line 56). -/
def easter_g (year : Int) : Int := (easter_b year - easter_f year + 1).tdiv 3

/-- Local `h` of `compute_easter` (line 57). -/
def easter_h (year : Int) : Int :=
  (19 * easter_a year + easter_b year - easter_d year - easter_g year + 15).tmod 30

/-- Local `i` of `compute_easter` (line 58). -/
def easter_i (year : Int) : Int := (easter_c year).tdiv 4

/-- Local `k` of `compute_easter` (line 59). -/
def easter_k (year : Int) : Int := (easter_c year).tmod 4

/-- Local `l` of `compute_easter` (line 60). -/
def easter_l (year : Int) : Int :=
  (32 + 2 * easter_e year + 2 * easter_i year - easter_h year - easter_k year).tmod 7

/-- Local `m` of `compute_easter` (line 61). -/
def easter_m (year : Int) : Int :=
  (easter_a year + 11 * easter_h year + 22 * easter_l year).tdiv 451

/-- The expression `h + l - 7 * m + 114` shared by the month and day
computations (lines 62-63). -/
def easter_total (year : Int) : Int :=
  easter_h year + easter_l year - 7 * easter_m year + 114

/-- The month/day pair computed by `compute_easter` (src/src/main.rs lines
49-65), Meeus/Jones/Butcher; Rust `%` / `/` on `i32` are `tmod` / `tdiv`. -/
def compute_easter_md (year : Int) : Int × Int :=
  ((easter_total year).tdiv 31, (easter_total year).tmod 31 + 1)

/-- `compute_easter` as a day count: the `NaiveDate` built from the
computed month and day. -/
def compute_easter (year : Int) : Int :=
  toDay year (compute_easter_md year).1 (compute_easter_md year).2

/-- The `Event` struct of src/src/main.rs (lines 23-30). -/
structure Event where
  label : String
  date : Int
  altar_color : String
  priority : Nat
  deriving DecidableEq, Repr

/-- The `insert_event` closure of `generate_events` (src/src/main.rs lines
77-88): insert only if the date lies in `[s, e)`; on an occupied date the
entry is replaced exactly when the incoming priority is strictly higher
(`and_modify`), otherwise the map keeps the existing event (`or_insert`
fires only on a vacant date).  The `HashMap` is embedded as a list of
events with pairwise distinct dates. -/
def insert_event (s e : Int) (m : List Event) (ev : Event) : List Event :=
  if s ≤ ev.date ∧ ev.date < e then
    if m.any fun x => x.date == ev.date then
      m.map fun x => if x.date = ev.date ∧ x.priority < ev.priority then ev else x
    else m ++ [ev]
  else m

/-- Rule group 1 of `generate_events` (lines 91-103): five Advent Sundays,
purple, priority 1. -/
def advent_events (lit_year : Int) : List Event :=
  (List.range 5).map fun (i : Nat) =>
    { label := if i = 0 then "advent" else "advent + " ++ toString i
      date := first_sunday_of_advent lit_year + 7 * (i : Int)
      altar_color := "purple"
      priority := 1 }

/-- `christmas_fixed` (line 111): December 25 of the liturgical year. -/
def christmas_fixed (lit_year : Int) : Int := toDay lit_year 12 25

/-- `christmas_plus1` (line 112): first Sunday on or after December 26. -/
def christmas_plus1 (lit_year : Int) : Int :=
  first_sunday_on_or_after (christmas_fixed lit_year + 1)

/-- `new_year_candidate` (line 113): one week after "christmas + 1". -/
def new_year_candidate (lit_year : Int) : Int := christmas_plus1 lit_year + 7

/-- `new_year_threshold` (line 114): January 6 of the following year. -/
def new_year_threshold (lit_year : Int) : Int := toDay (lit_year + 1) 1 6

/-- Rule group 2 of `generate_events` (lines 105-129): Christmas series,
white, priority 2; the "new year" candidate is pushed exactly when it is on
or after the January 6 threshold. -/
def christmas_events (lit_year : Int) : List Event :=
  let base := [("christmas", christmas_fixed lit_year),
               ("christmas + 1", christmas_plus1 lit_year)]
  let all :=
    if new_year_candidate lit_year ≥ new_year_threshold lit_year then
      base ++ [("new year", new_year_candidate lit_year)]
    else base
  all.map fun p => { label := p.1, date := p.2, altar_color := "white", priority := 2 }

/-- `epiphany_start` (lines 134-138): the withheld new-year candidate when it
fell below the threshold, else the first Sunday on or after January 6. -/
def epiphany_start (lit_year : Int) : Int :=
  if new_year_candidate lit_year < new_year_threshold lit_year then
    new_year_candidate lit_year
  else first_sunday_on_or_after (toDay (lit_year + 1) 1 6)

/-- Rule group 3 of `generate_events` (lines 139-152): seven Epiphany
Sundays, first white then green, priority 3. -/
def epiphany_events (lit_year : Int) : List Event :=
  (List.range 7).map fun (i : Nat) =>
    { label := if i = 0 then "epiphany" else "epiphany + " ++ toString i
      date := epiphany_start lit_year + 7 * (i : Int)
      altar_color := if i = 0 then "white" else "green"
      priority := 3 }

/-- The `pre_easter_colors` array (lines 156-158). -/
def pre_easter_colors : List String :=
  ["green", "green", "white", "purple", "purple", "purple", "purple", "white", "white"]

/-- Rule group 4 of `generate_events` (lines 154-171): nine events at 7j
days before Easter of the following calendar year, priority 4; the color for
"easter - j" is `pre_easter_colors[9 - j]`. -/
def pre_easter_events (lit_year : Int) : List Event :=
  (List.range 9).map fun idx =>
    let j : Nat := idx + 1
    { label := "easter - " ++ toString j
      date := compute_easter (lit_year + 1) - 7 * (j : Int)
      altar_color := pre_easter_colors.getD (9 - j) ""
      priority := 4 }

/-- Rule group 5 of `generate_events` (lines 173-187): seven white Easter
Sundays from Easter itself, priority 5. -/
def easter_events (lit_year : Int) : List Event :=
  (List.range 7).map fun (i : Nat) =>
    { label := if i = 0 then "easter" else "easter + " ++ toString i
      date := compute_easter (lit_year + 1) + 7 * (i : Int)
      altar_color := "white"
      priority := 5 }

/-- Rule group 6 of `generate_events` (lines 189-196): Pentecost, 49 days
after Easter, red, priority 6. -/
def pentecost_events (lit_year : Int) : List Event :=
  [{ label := "pentecost", date := compute_easter (lit_year + 1) + 49
     altar_color := "red", priority := 6 }]

/-- Rule group 7 of `generate_events` (lines 198-222): 28 Trinity Sundays
starting one week after Pentecost, priority 7. -/
def trinity_events (lit_year : Int) : List Event :=
  (List.range 28).map fun (i : Nat) =>
    { label := if i = 0 then "trinity" else "trinity + " ++ toString i
      date := compute_easter (lit_year + 1) + 49 + 7 + 7 * (i : Int)
      altar_color :=
        if i = 0 then "white"
        else if 1 ≤ i ∧ i ≤ 4 then "green"
        else if i = 5 then "red"
        else "green"
      priority := 7 }

/-- All candidate events of `generate_events`, in the exact order in which
the source passes them to `insert_event`. -/
def candidate_events (lit_year : Int) : List Event :=
  advent_events lit_year ++ christmas_events lit_year ++ epiphany_events lit_year ++
    pre_easter_events lit_year ++ easter_events lit_year ++ pentecost_events lit_year ++
    trinity_events lit_year

/-- The comparison used for the final `events.sort_by_key(|ev| ev.date)`. -/
def date_le (a b : Event) : Prop := a.date ≤ b.date

instance : DecidableRel date_le := fun a b => Int.decLe a.date b.date

instance : IsTotal Event date_le := ⟨fun a b => Int.le_total a.date b.date⟩

instance : IsTrans Event date_le := ⟨fun _ _ _ h1 h2 => le_trans h1 h2⟩

/-- `generate_events` (src/src/main.rs lines 70-227): fold every candidate
through `insert_event` over `[start, end)`, then sort the surviving map
values by date.  Dates in the map are pairwise distinct, so the sorted
output does not depend on the `HashMap` value order. -/
def generate_events (lit_year : Int) : List Event :=
  let s := first_sunday_of_advent lit_year
  let e := first_sunday_of_advent (lit_year + 1)
  ((candidate_events lit_year).foldl (insert_event s e) []).insertionSort date_le

/-- A parsed `dd/mm/yyyy` input date; `chrono` rejects invalid dates at
parse time, captured by `valid_date` below. -/
structure InputDate where
  y : Int
  m : Int
  d : Int
  deriving DecidableEq, Repr

/-- The day count of the input date. -/
def InputDate.day (dt : InputDate) : Int := toDay dt.y dt.m dt.d

/-- Gregorian leap-year test (zero tests are identical for `tmod`/`emod`). -/
def is_leap (y : Int) : Bool := (y % 4 == 0 && y % 100 != 0) || y % 400 == 0

/-- Month lengths of the Gregorian calendar. -/
def days_in_month (y m : Int) : Int :=
  if m = 1 ∨ m = 3 ∨ m = 5 ∨ m = 7 ∨ m = 8 ∨ m = 10 ∨ m = 12 then 31
  else if m = 4 ∨ m = 6 ∨ m = 9 ∨ m = 11 then 30
  else if is_leap y then 29 else 28

/-- The date is one `chrono` accepts when parsing `dd/mm/yyyy`. -/
def valid_date (dt : InputDate) : Prop :=
  1 ≤ dt.m ∧ dt.m ≤ 12 ∧ 1 ≤ dt.d ∧ dt.d ≤ days_in_month dt.y dt.m

instance : DecidablePred valid_date := fun dt => by
  unfold valid_date; infer_instance

/-- `compute_liturgical_year` (src/src/main.rs lines 232-239). -/
def compute_liturgical_year (input : InputDate) : Int :=
  let candidate := first_sunday_of_advent input.y
  if input.day ≥ candidate then input.y else input.y - 1

/-- `compute_set` (src/src/main.rs lines 244-246); `rem_euclid` is `%` on
`Int` (Euclidean, non-negative remainder). -/
def compute_set (lit_year : Int) : Int := (lit_year - 2024) % 3 + 1

/-- The four readings printed for one event. -/
structure Readings where
  old_testament : String
  lection : String
  gospel : String
  preaching : String
  deriving DecidableEq, Repr

/-- The static `custom_readings` table of `main` (src/src/main.rs lines
263-284), keyed by (event label, set number). -/
def custom_readings : List ((String × Int) × Readings) :=
  [(("epiphany + 5", 1),
    { old_testament := "Jer 17:5-10", lection := "Col 3:12-17"
      gospel := "Mat 13:31-35", preaching := "Mat 13:24-30" }),
   (("easter - 9", 1),
    { old_testament := "Jer 1:4-10", lection := "1 Cor:09:24-10:05"
      gospel := "Mat 19:27-30", preaching := "Mat 20:1-16" })]

/-- `custom_readings.get(&(label, set))`. -/
def lookup_custom (label : String) (set : Int) : Option Readings :=
  (custom_readings.find? fun p => p.1.1 == label && p.1.2 == set).map fun p => p.2

/-- The rotated gospel set: `if set == 3 { 1 } else { set + 1 }` (lines
311 and 343). -/
def gospel_set (set : Int) : Int := if set = 3 then 1 else set + 1

/-- The placeholder readings synthesized when no custom entry is used
(lines 310-327 and 343-359). -/
def default_readings (label : String) (set : Int) : Readings :=
  { old_testament := "Old Testament reading for " ++ label ++ " (Set " ++ toString set ++ ")"
    lection := "Lection reading for " ++ label ++ " (Set " ++ toString set ++ ")"
    gospel := "Gospel reading for " ++ label ++ " (Set " ++ toString (gospel_set set) ++ ")"
    preaching := "Preaching reading for " ++ label ++ " (Set " ++ toString set ++ ")" }

/-- The outcome of one query, as printed by `main`: an exact match, the
fallback to the most recent event on or before the input date (the note
carries that event and hence its own date), or no event found. -/
inductive ResolveResult where
  | exactMatch (lit_year set : Int) (ev : Event) (readings : Readings)
  | inexactMatch (lit_year set : Int) (ev : Event) (readings : Readings)
  | notFound (lit_year : Int)
  deriving DecidableEq, Repr

/-- The resolution logic of `main` (src/src/main.rs lines 286-367): compute
liturgical year and set, generate the year's events, look for an exact date
match (custom readings consulted, else placeholders), otherwise take the
last event with date ≤ input (placeholders unconditionally), otherwise
report not found. -/
def resolve (input : InputDate) : ResolveResult :=
  let lit_year := compute_liturgical_year input
  let set := compute_set lit_year
  let events := generate_events lit_year
  match events.find? fun ev => ev.date == input.day with
  | some ev =>
      let readings :=
        match lookup_custom ev.label set with
        | some r => r
        | none => default_readings ev.label set
      ResolveResult.exactMatch lit_year set ev readings
  | none =>
      match events.reverse.find? fun ev => decide (ev.date ≤ input.day) with
      | some ev => ResolveResult.inexactMatch lit_year set ev (default_readings ev.label set)
      | none => ResolveResult.notFound lit_year

/-! ### Arithmetic helpers for truncating division and remainder -/

theorem neg_tmod (a b : Int) : (-a).tmod b = -(a.tmod b) := by
  have h1 := Int.tmod_add_tdiv (-a) b
  have h2 := Int.tmod_add_tdiv a b
  rw [Int.neg_tdiv a b] at h1
  linarith [h1, h2]

theorem tmod_bounds (a : Int) {b : Int} (hb : 0 < b) : -b < a.tmod b ∧ a.tmod b < b := by
  rcases le_or_lt 0 a with h | h
  · rw [Int.tmod_eq_emod h hb.le]
    have h1 := Int.emod_nonneg a (by omega : b ≠ 0)
    have h2 := Int.emod_lt_of_pos a hb
    omega
  · have hn := neg_tmod (-a) b
    rw [neg_neg] at hn
    rw [Int.tmod_eq_emod (by omega : (0:Int) ≤ -a) hb.le] at hn
    have h1 := Int.emod_nonneg (-a) (by omega : b ≠ 0)
    have h2 := Int.emod_lt_of_pos (-a) hb
    omega

theorem tdiv_neg_eq (a b : Int) (ha : a < 0) (hb : 0 < b) :
    a.tdiv b = -((-a) / b) := by
  rw [← Int.tdiv_eq_ediv (by omega : (0:Int) ≤ -a) hb.le, ← Int.neg_tdiv, neg_neg]

/-! ### Day-count arithmetic -/

theorem toDay_nov27 (y : Int) : toDay y 11 27 = toDay y 11 21 + 6 := by
  simp only [toDay]
  norm_num
  omega

theorem toDay_nov21_lt_dec25 (y : Int) : toDay y 11 21 + 6 < toDay y 12 25 := by
  simp only [toDay]
  norm_num
  omega

theorem toDay_dec25_lt_jan6 (y : Int) : toDay y 12 25 < toDay (y + 1) 1 6 := by
  simp only [toDay]
  norm_num

theorem toDay_year_gap (y : Int) : toDay y 11 21 + 365 ≤ toDay (y + 1) 11 21 := by
  simp only [toDay]
  norm_num
  omega

theorem toDay_nov27_lt_jan1 (y : Int) : toDay (y - 1) 11 27 < toDay y 1 1 := by
  simp only [toDay]
  norm_num

theorem toDay_nov21_lt_feb1 (y : Int) : toDay y 11 21 + 69 < toDay (y + 1) 2 1 := by
  simp only [toDay]
  norm_num
  omega

theorem toDay_mar1_add (y : Int) : toDay y 3 22 = toDay y 3 1 + 21 ∧ toDay y 4 25 = toDay y 3 1 + 55 := by
  simp only [toDay]
  norm_num
  omega

/-- Dates with month between 2 and 5 and a day between 1 and 31 are never
before February 1 of the same year (used to bound Easter's day count for
every year, including years where the truncating arithmetic leaves the
classical March/April window). -/
theorem toDay_ge_feb1 (y M D : Int) (hM1 : 2 ≤ M) (hM2 : M ≤ 5) (hD1 : 1 ≤ D) (hD2 : D ≤ 31) :
    toDay y 2 1 ≤ toDay y M D := by
  have hM : M = 2 ∨ M = 3 ∨ M = 4 ∨ M = 5 := by omega
  rcases hM with h | h | h | h <;> subst h <;> simp only [toDay] <;> norm_num <;> omega

/-- Within a fixed year, January 1 is the least valid date. -/
theorem toDay_jan1_le (dt : InputDate) (hv : valid_date dt) :
    toDay dt.y 1 1 ≤ dt.day := by
  obtain ⟨h1, h2, h3, h4⟩ := hv
  have hm : dt.m = 1 ∨ dt.m = 2 ∨ dt.m = 3 ∨ dt.m = 4 ∨ dt.m = 5 ∨ dt.m = 6 ∨ dt.m = 7 ∨
      dt.m = 8 ∨ dt.m = 9 ∨ dt.m = 10 ∨ dt.m = 11 ∨ dt.m = 12 := by omega
  unfold InputDate.day
  rcases hm with h | h | h | h | h | h | h | h | h | h | h | h <;>
    rw [h] <;> simp only [toDay] <;> norm_num <;> omega

/-! ### The first-Sunday helpers -/

theorem first_sunday_on_or_after_spec (t : Int) :
    t ≤ first_sunday_on_or_after t ∧ first_sunday_on_or_after t ≤ t + 6 ∧
    daysFromSunday (first_sunday_on_or_after t) = 0 ∧
    ∀ u : Int, t ≤ u → u < first_sunday_on_or_after t → daysFromSunday u ≠ 0 := by
  simp only [first_sunday_on_or_after, first_sunday_on_or_after_go, daysFromSunday]
  split_ifs <;>
    refine ⟨by omega, by omega, by omega, fun u h1 h2 => by omega⟩

theorem first_sunday_of_advent_spec (y : Int) :
    toDay y 11 21 ≤ first_sunday_of_advent y ∧
    first_sunday_of_advent y ≤ toDay y 11 21 + 6 ∧
    daysFromSunday (first_sunday_of_advent y) = 0 ∧
    ∀ u : Int, toDay y 11 21 ≤ u → u < first_sunday_of_advent y → daysFromSunday u ≠ 0 := by
  simp only [first_sunday_of_advent, daysFromSunday]
  refine ⟨by omega, by omega, by omega, fun u h1 h2 => by omega⟩

/-! ### Easter arithmetic -/

/-- For non-negative years every intermediate quantity of `compute_easter`
has a non-negative dividend, so the truncating operations agree with the
Euclidean ones. -/
theorem easter_eqs (y : Int) (hy : 0 ≤ y) :
    easter_a y = y % 19 ∧
    easter_b y = y / 100 ∧
    easter_c y = y % 100 ∧
    easter_d y = easter_b y / 4 ∧
    easter_e y = easter_b y % 4 ∧
    easter_f y = (easter_b y + 8) / 25 ∧
    easter_g y = (easter_b y - easter_f y + 1) / 3 ∧
    easter_h y = (19 * easter_a y + easter_b y - easter_d y - easter_g y + 15) % 30 ∧
    easter_i y = easter_c y / 4 ∧
    easter_k y = easter_c y % 4 ∧
    easter_l y = (32 + 2 * easter_e y + 2 * easter_i y - easter_h y - easter_k y) % 7 ∧
    easter_m y = (easter_a y + 11 * easter_h y + 22 * easter_l y) / 451 := by
  have ha : easter_a y = y % 19 := by
    unfold easter_a; exact Int.tmod_eq_emod hy (by norm_num)
  have hb : easter_b y = y / 100 := by
    unfold easter_b; exact Int.tdiv_eq_ediv hy (by norm_num)
  have hc : easter_c y = y % 100 := by
    unfold easter_c; exact Int.tmod_eq_emod hy (by norm_num)
  have hd : easter_d y = easter_b y / 4 := by
    unfold easter_d; exact Int.tdiv_eq_ediv (by omega) (by norm_num)
  have he : easter_e y = easter_b y % 4 := by
    unfold easter_e; exact Int.tmod_eq_emod (by omega) (by norm_num)
  have hf : easter_f y = (easter_b y + 8) / 25 := by
    unfold easter_f; exact Int.tdiv_eq_ediv (by omega) (by norm_num)
  have hg : easter_g y = (easter_b y - easter_f y + 1) / 3 := by
    unfold easter_g; exact Int.tdiv_eq_ediv (by omega) (by norm_num)
  have hh : easter_h y = (19 * easter_a y + easter_b y - easter_d y - easter_g y + 15) % 30 := by
    unfold easter_h; exact Int.tmod_eq_emod (by omega) (by norm_num)
  have hi : easter_i y = easter_c y / 4 := by
    unfold easter_i; exact Int.tdiv_eq_ediv (by omega) (by norm_num)
  have hk : easter_k y = easter_c y % 4 := by
    unfold easter_k; exact Int.tmod_eq_emod (by omega) (by norm_num)
  have hl : easter_l y = (32 + 2 * easter_e y + 2 * easter_i y - easter_h y - easter_k y) % 7 := by
    unfold easter_l; exact Int.tmod_eq_emod (by omega) (by norm_num)
  have hm : easter_m y = (easter_a y + 11 * easter_h y + 22 * easter_l y) / 451 := by
    unfold easter_m; exact Int.tdiv_eq_ediv (by omega) (by norm_num)
  exact ⟨ha, hb, hc, hd, he, hf, hg, hh, hi, hk, hl, hm⟩

/-- For non-negative years the Meeus/Jones/Butcher total `h + l - 7m + 114`
lies in `[114, 148]`: March 22 through April 25. -/
theorem easter_total_bounds (y : Int) (hy : 0 ≤ y) :
    114 ≤ easter_total y ∧ easter_total y ≤ 148 := by
  obtain ⟨ha, hb, hc, hd, he, hf, hg, hh, hi, hk, hl, hm⟩ := easter_eqs y hy
  unfold easter_total
  omega

theorem compute_easter_md_spec (y : Int) (hy : 0 ≤ y) :
    compute_easter_md y = (easter_total y / 31, easter_total y % 31 + 1) := by
  have hb := easter_total_bounds y hy
  unfold compute_easter_md
  rw [Int.tdiv_eq_ediv (by omega) (by norm_num), Int.tmod_eq_emod (by omega) (by norm_num)]

theorem toDay_march_line (y t : Int) (h1 : 93 ≤ t) (h2 : t ≤ 154) :
    toDay y (t / 31) (t % 31 + 1) = toDay y 3 1 + (t - 93) := by
  have h3 : t / 31 = 3 ∨ t / 31 = 4 := by omega
  have h4 : t % 31 = t - 31 * (t / 31) := by omega
  rcases h3 with h | h <;> rw [h4, h] <;> simp only [toDay] <;> norm_num <;> omega

/-- For non-negative years Easter's day count is March 1 plus
`easter_total - 93` days. -/
theorem compute_easter_line (y : Int) (hy : 0 ≤ y) :
    compute_easter y = toDay y 3 1 + (easter_total y - 93) := by
  have hb := easter_total_bounds y hy
  unfold compute_easter
  rw [compute_easter_md_spec y hy]
  exact toDay_march_line y (easter_total y) (by omega) (by omega)

theorem easter_range (y : Int) (hy : 0 ≤ y) :
    toDay y 3 22 ≤ compute_easter y ∧ compute_easter y ≤ toDay y 4 25 := by
  have hb := easter_total_bounds y hy
  have hline := compute_easter_line y hy
  have hmar := toDay_mar1_add y
  omega

/-- For non-negative years the computed month/day pair is a valid date in
the window March 22 – April 25. -/
theorem easter_md_range (y : Int) (hy : 0 ≤ y) :
    (compute_easter_md y).1 = 3 ∧ 22 ≤ (compute_easter_md y).2 ∧ (compute_easter_md y).2 ≤ 31 ∨
    (compute_easter_md y).1 = 4 ∧ 1 ≤ (compute_easter_md y).2 ∧ (compute_easter_md y).2 ≤ 25 := by
  have hb := easter_total_bounds y hy
  rw [compute_easter_md_spec y hy]
  dsimp only
  omega

/-- For non-negative years Easter falls on a Sunday. -/
theorem easter_sunday (y : Int) (hy : 0 ≤ y) :
    daysFromSunday (compute_easter y) = 0 := by
  obtain ⟨ha, hb, hc, hd, he, hf, hg, hh, hi, hk, hl, hm⟩ := easter_eqs y hy
  have hline := compute_easter_line y hy
  unfold easter_total at hline
  have hbase : toDay y 3 1 =
      146097 * (y / 400) + 365 * (y - y / 400 * 400) + (y - y / 400 * 400) / 4 -
        (y - y / 400 * 400) / 100 - 719468 := by
    simp only [toDay]
    norm_num
    omega
  have h1 : y / 400 = easter_b y / 4 := by omega
  have h2 : y - y / 400 * 400 = 100 * easter_e y + easter_c y := by omega
  have h3 : (y - y / 400 * 400) / 4 = 25 * easter_e y + easter_i y := by omega
  have h4 : (y - y / 400 * 400) / 100 = easter_e y := by omega
  have h6 : easter_c y = 4 * easter_i y + easter_k y := by omega
  unfold daysFromSunday
  omega

/-- For every year (however negative) the Meeus/Jones/Butcher total stays
in `[72, 156]`, so the computed month is between 2 and 5. -/
theorem easter_total_bounds_all (y : Int) : 72 ≤ easter_total y ∧ easter_total y ≤ 156 := by
  have ha : -19 < easter_a y ∧ easter_a y < 19 := by
    unfold easter_a; exact tmod_bounds y (by norm_num)
  have hh : -30 < easter_h y ∧ easter_h y < 30 := by
    unfold easter_h; exact tmod_bounds _ (by norm_num)
  have hl : -7 < easter_l y ∧ easter_l y < 7 := by
    unfold easter_l; exact tmod_bounds _ (by norm_num)
  have hm : easter_m y = -1 ∨ easter_m y = 0 ∨ easter_m y = 1 := by
    unfold easter_m
    rcases le_or_lt 0 (easter_a y + 11 * easter_h y + 22 * easter_l y) with h | h
    · rw [Int.tdiv_eq_ediv h (by norm_num)]
      omega
    · rw [tdiv_neg_eq _ 451 h (by norm_num)]
      omega
  unfold easter_total
  omega

theorem compute_easter_md_range_all (y : Int) :
    2 ≤ (compute_easter_md y).1 ∧ (compute_easter_md y).1 ≤ 5 ∧
    1 ≤ (compute_easter_md y).2 ∧ (compute_easter_md y).2 ≤ 31 := by
  have hb := easter_total_bounds_all y
  unfold compute_easter_md
  rw [Int.tdiv_eq_ediv (by omega) (by norm_num), Int.tmod_eq_emod (by omega) (by norm_num)]
  dsimp only
  omega

/-- For every year Easter's day count is at least February 1 of that year
(a coarse bound that is valid even where the truncating arithmetic leaves
the classical window). -/
theorem compute_easter_ge_feb1 (y : Int) : toDay y 2 1 ≤ compute_easter y := by
  have h := compute_easter_md_range_all y
  unfold compute_easter
  exact toDay_ge_feb1 y _ _ h.1 h.2.1 h.2.2.1 h.2.2.2

/-! ### Properties of the insert-or-override map -/

theorem start_lt_end (ly : Int) :
    first_sunday_of_advent ly < first_sunday_of_advent (ly + 1) := by
  have h1 := first_sunday_of_advent_spec ly
  have h2 := first_sunday_of_advent_spec (ly + 1)
  have h3 := toDay_year_gap ly
  omega

/-- Everything in the map after an insertion was already there, or is the
inserted event, which then lies in the window. -/
theorem insert_event_mem {s e : Int} {m : List Event} {ev x : Event}
    (hx : x ∈ insert_event s e m ev) :
    x ∈ m ∨ (x = ev ∧ s ≤ ev.date ∧ ev.date < e) := by
  unfold insert_event at hx
  split_ifs at hx with h1 h2
  · obtain ⟨x₀, hx₀, hfx⟩ := List.mem_map.1 hx
    by_cases hc : x₀.date = ev.date ∧ x₀.priority < ev.priority
    · rw [if_pos hc] at hfx
      exact Or.inr ⟨hfx.symm, h1.1, h1.2⟩
    · rw [if_neg hc] at hfx
      exact Or.inl (hfx ▸ hx₀)
  · rcases List.mem_append.1 hx with h | h
    · exact Or.inl h
    · simp only [List.mem_singleton] at h
      exact Or.inr ⟨h, h1.1, h1.2⟩
  · exact Or.inl hx

/-- Insertion never changes the multiset of dates except by appending a
fresh one; in particular replacement preserves the date list exactly. -/
theorem insert_event_dates {s e : Int} {m : List Event} {ev : Event} :
    (insert_event s e m ev).map Event.date = m.map Event.date ∨
    ((insert_event s e m ev).map Event.date = m.map Event.date ++ [ev.date] ∧
      ∀ x ∈ m, x.date ≠ ev.date) := by
  unfold insert_event
  split_ifs with h1 h2
  · left
    rw [List.map_map]
    refine List.map_congr_left fun x hx => ?_
    by_cases hc : x.date = ev.date ∧ x.priority < ev.priority
    · simp only [Function.comp_apply, if_pos hc]
      exact hc.1.symm
    · simp only [Function.comp_apply, if_neg hc]
  · right
    refine ⟨by simp, fun x hx hd => ?_⟩
    rw [List.any_eq_true] at h2
    exact absurd ⟨x, hx, by simpa using hd⟩ h2
  · left; rfl

theorem insert_event_nodup {s e : Int} {m : List Event} {ev : Event}
    (hm : (m.map Event.date).Nodup) :
    ((insert_event s e m ev).map Event.date).Nodup := by
  rcases @insert_event_dates s e m ev with h | ⟨h, hfresh⟩
  · rwa [h]
  · rw [h]
    rw [List.nodup_append]
    refine ⟨hm, List.nodup_singleton _, ?_⟩
    intro d hd
    obtain ⟨x, hx, hdx⟩ := List.mem_map.1 hd
    simp only [List.mem_singleton]
    exact fun hde => hfresh x hx (by omega)


/-- An existing entry survives an insertion that does not beat it on
priority at its date (in particular any insertion at a different date). -/
theorem insert_event_keeps {s e : Int} {m : List Event} {ev x : Event}
    (hx : x ∈ m) (h : ev.date = x.date → ev.priority ≤ x.priority) :
    x ∈ insert_event s e m ev := by
  unfold insert_event
  split_ifs with h1 h2
  · refine List.mem_map.2 ⟨x, hx, ?_⟩
    have hneg : ¬(x.date = ev.date ∧ x.priority < ev.priority) := by
      rintro ⟨hd, hp⟩
      have := h hd.symm
      omega
    rw [if_neg hneg]
  · exact List.mem_append_left _ hx
  · exact hx

/-- An insertion in the window lands in the map whenever every occupant of
its date has strictly lower priority. -/
theorem insert_event_wins {s e : Int} {m : List Event} {ev : Event}
    (h1 : s ≤ ev.date) (h2 : ev.date < e)
    (h3 : ∀ x ∈ m, x.date = ev.date → x.priority < ev.priority) :
    ev ∈ insert_event s e m ev := by
  unfold insert_event
  rw [if_pos ⟨h1, h2⟩]
  by_cases hocc : m.any fun x => x.date == ev.date
  · rw [if_pos hocc]
    rw [List.any_eq_true] at hocc
    obtain ⟨x₀, hx₀, hd⟩ := hocc
    have hd' : x₀.date = ev.date := by simpa using hd
    refine List.mem_map.2 ⟨x₀, hx₀, ?_⟩
    rw [if_pos ⟨hd', h3 x₀ hx₀ hd'⟩]
  · rw [if_neg hocc]
    exact List.mem_append_right _ (List.mem_singleton.2 rfl)

theorem foldl_insert_mem {s e : Int} :
    ∀ (cs : List Event) (m : List Event) (x : Event),
      x ∈ cs.foldl (insert_event s e) m → x ∈ m ∨ x ∈ cs := by
  intro cs
  induction cs with
  | nil => exact fun m x hx => Or.inl hx
  | cons c cs ih =>
    intro m x hx
    rcases ih (insert_event s e m c) x hx with h | h
    · rcases insert_event_mem h with h' | ⟨h', _⟩
      · exact Or.inl h'
      · exact Or.inr (h' ▸ List.mem_cons_self c cs)
    · exact Or.inr (List.mem_cons_of_mem c h)

theorem foldl_insert_range {s e : Int} :
    ∀ (cs : List Event) (m : List Event),
      (∀ x ∈ m, s ≤ x.date ∧ x.date < e) →
      ∀ x ∈ cs.foldl (insert_event s e) m, s ≤ x.date ∧ x.date < e := by
  intro cs
  induction cs with
  | nil => exact fun m hm => hm
  | cons c cs ih =>
    intro m hm
    refine ih (insert_event s e m c) fun x hx => ?_
    rcases insert_event_mem hx with h | ⟨h, hr1, hr2⟩
    · exact hm x h
    · exact ⟨h ▸ hr1, h ▸ hr2⟩

theorem foldl_insert_nodup {s e : Int} :
    ∀ (cs : List Event) (m : List Event),
      (m.map Event.date).Nodup →
      (((cs.foldl (insert_event s e) m).map Event.date)).Nodup := by
  intro cs
  induction cs with
  | nil => exact fun m hm => hm
  | cons c cs ih =>
    intro m hm
    exact ih (insert_event s e m c) (insert_event_nodup hm)

theorem foldl_insert_keeps {s e : Int} :
    ∀ (cs : List Event) (m : List Event) (x : Event),
      x ∈ m → (∀ c ∈ cs, c.date = x.date → c.priority ≤ x.priority) →
      x ∈ cs.foldl (insert_event s e) m := by
  intro cs
  induction cs with
  | nil => exact fun m x hx _ => hx
  | cons c cs ih =>
    intro m x hx hcs
    refine ih (insert_event s e m c) x ?_ fun c' hc' => hcs c' (List.mem_cons_of_mem c hc')
    exact insert_event_keeps hx (hcs c (List.mem_cons_self c cs))

/-! ### Candidate analysis -/

theorem toDay_dec25_lt_nov21_next (y : Int) : toDay y 12 25 < toDay (y + 1) 11 21 := by
  simp only [toDay]
  norm_num
  omega

theorem toDay_dec25_add87_le_mar22 (y : Int) : toDay y 12 25 + 87 ≤ toDay (y + 1) 3 22 := by
  simp only [toDay]
  norm_num
  omega

theorem epiphany_start_cases (ly : Int) :
    (new_year_candidate ly < new_year_threshold ly ∧
      epiphany_start ly = new_year_candidate ly) ∨
    (new_year_threshold ly ≤ new_year_candidate ly ∧
      epiphany_start ly = first_sunday_on_or_after (toDay (ly + 1) 1 6)) := by
  unfold epiphany_start
  split_ifs with h
  · exact Or.inl ⟨h, rfl⟩
  · exact Or.inr ⟨by omega, rfl⟩

/-- Every candidate passed to `insert_event` is either the head Advent
event or dated strictly after the first Sunday of Advent. -/
theorem candidate_cases (ly : Int) (c : Event) (hc : c ∈ candidate_events ly) :
    c = { label := "advent", date := first_sunday_of_advent ly,
          altar_color := "purple", priority := 1 } ∨
    first_sunday_of_advent ly < c.date := by
  have hcf : christmas_fixed ly = toDay ly 12 25 := rfl
  have hcp : christmas_plus1 ly = first_sunday_on_or_after (christmas_fixed ly + 1) := rfl
  have hny : new_year_candidate ly = christmas_plus1 ly + 7 := rfl
  have hnt : new_year_threshold ly = toDay (ly + 1) 1 6 := rfl
  have hfs := first_sunday_on_or_after_spec (christmas_fixed ly + 1)
  have hfs6 := first_sunday_on_or_after_spec (toDay (ly + 1) 1 6)
  have hadv := first_sunday_of_advent_spec ly
  have hd25 := toDay_nov21_lt_dec25 ly
  have hj6 := toDay_dec25_lt_jan6 ly
  have hfeb := toDay_nov21_lt_feb1 ly
  have heast := compute_easter_ge_feb1 (ly + 1)
  have hep := epiphany_start_cases ly
  unfold candidate_events at hc
  simp only [List.mem_append] at hc
  rcases hc with ((((((hc | hc) | hc) | hc) | hc) | hc) | hc)
  · unfold advent_events at hc
    obtain ⟨i, hi, rfl⟩ := List.mem_map.1 hc
    rw [List.mem_range] at hi
    rcases Nat.eq_zero_or_pos i with h0 | h0
    · subst h0
      left
      norm_num
    · right
      show first_sunday_of_advent ly < first_sunday_of_advent ly + 7 * (i : Int)
      omega
  · unfold christmas_events at hc
    obtain ⟨p, hp, rfl⟩ := List.mem_map.1 hc
    right
    show first_sunday_of_advent ly < p.2
    split_ifs at hp with hcut
    · simp only [List.mem_append, List.mem_cons, List.mem_singleton,
        List.not_mem_nil, or_false] at hp
      rcases hp with (hp | hp) | hp
      · rw [hp]
        show first_sunday_of_advent ly < christmas_fixed ly
        omega
      · rw [hp]
        show first_sunday_of_advent ly < christmas_plus1 ly
        omega
      · rw [hp]
        show first_sunday_of_advent ly < new_year_candidate ly
        omega
    · simp only [List.mem_cons, List.mem_singleton, List.not_mem_nil, or_false] at hp
      rcases hp with hp | hp
      · rw [hp]
        show first_sunday_of_advent ly < christmas_fixed ly
        omega
      · rw [hp]
        show first_sunday_of_advent ly < christmas_plus1 ly
        omega
  · unfold epiphany_events at hc
    obtain ⟨i, hi, rfl⟩ := List.mem_map.1 hc
    rw [List.mem_range] at hi
    right
    show first_sunday_of_advent ly < epiphany_start ly + 7 * (i : Int)
    rcases hep with ⟨hlt, he⟩ | ⟨hge, he⟩ <;> omega
  · unfold pre_easter_events at hc
    obtain ⟨i, hi, rfl⟩ := List.mem_map.1 hc
    rw [List.mem_range] at hi
    right
    show first_sunday_of_advent ly < compute_easter (ly + 1) - 7 * ((i + 1 : Nat) : Int)
    omega
  · unfold easter_events at hc
    obtain ⟨i, hi, rfl⟩ := List.mem_map.1 hc
    rw [List.mem_range] at hi
    right
    show first_sunday_of_advent ly < compute_easter (ly + 1) + 7 * (i : Int)
    omega
  · unfold pentecost_events at hc
    simp only [List.mem_singleton] at hc
    subst hc
    right
    show first_sunday_of_advent ly < compute_easter (ly + 1) + 49
    omega
  · unfold trinity_events at hc
    obtain ⟨i, hi, rfl⟩ := List.mem_map.1 hc
    rw [List.mem_range] at hi
    right
    show first_sunday_of_advent ly < compute_easter (ly + 1) + 49 + 7 + 7 * (i : Int)
    omega

/-! ### Structure of the generated event list -/

theorem advent_events_head (ly : Int) :
    ∃ t, advent_events ly =
      ({ label := "advent", date := first_sunday_of_advent ly,
         altar_color := "purple", priority := 1 } : Event) :: t := by
  have h0 : ({ label := if (0:Nat) = 0 then "advent" else "advent + " ++ toString (0:Nat),
               date := first_sunday_of_advent ly + 7 * ((0:Nat) : Int),
               altar_color := "purple", priority := 1 } : Event) =
      { label := "advent", date := first_sunday_of_advent ly,
        altar_color := "purple", priority := 1 } := by norm_num
  unfold advent_events
  rw [show List.range 5 = 0 :: [1, 2, 3, 4] from rfl, List.map_cons, h0]
  exact ⟨_, rfl⟩

theorem candidate_events_cons (ly : Int) :
    ∃ t, candidate_events ly =
      ({ label := "advent", date := first_sunday_of_advent ly,
         altar_color := "purple", priority := 1 } : Event) :: t := by
  obtain ⟨t, ht⟩ := advent_events_head ly
  unfold candidate_events
  rw [ht]
  simp only [List.cons_append]
  exact ⟨_, rfl⟩

/-- The fold of all candidates through `insert_event`: every entry is in
the window and a candidate, dates are pairwise distinct, and the head
Advent event is present. -/
theorem events_map_spec (ly : Int) :
    (∀ x ∈ (candidate_events ly).foldl
        (insert_event (first_sunday_of_advent ly) (first_sunday_of_advent (ly + 1))) [],
      first_sunday_of_advent ly ≤ x.date ∧ x.date < first_sunday_of_advent (ly + 1)) ∧
    (((candidate_events ly).foldl
        (insert_event (first_sunday_of_advent ly) (first_sunday_of_advent (ly + 1))) []).map
          Event.date).Nodup ∧
    ({ label := "advent", date := first_sunday_of_advent ly,
       altar_color := "purple", priority := 1 } : Event) ∈
      (candidate_events ly).foldl
        (insert_event (first_sunday_of_advent ly) (first_sunday_of_advent (ly + 1))) [] ∧
    (∀ x ∈ (candidate_events ly).foldl
        (insert_event (first_sunday_of_advent ly) (first_sunday_of_advent (ly + 1))) [],
      x ∈ candidate_events ly) := by
  refine ⟨foldl_insert_range _ _ (by simp), foldl_insert_nodup _ _ (by simp), ?_, ?_⟩
  · obtain ⟨t, ht⟩ := candidate_events_cons ly
    rw [ht, List.foldl_cons]
    have hins : insert_event (first_sunday_of_advent ly) (first_sunday_of_advent (ly + 1)) []
        { label := "advent", date := first_sunday_of_advent ly,
          altar_color := "purple", priority := 1 } =
        [{ label := "advent", date := first_sunday_of_advent ly,
           altar_color := "purple", priority := 1 }] := by
      unfold insert_event
      rw [if_pos ⟨le_refl _, start_lt_end ly⟩]
      simp
    rw [hins]
    refine foldl_insert_keeps _ _ _ (List.mem_singleton.2 rfl) ?_
    intro c hct
    have hcc : c ∈ candidate_events ly := by
      rw [ht]
      exact List.mem_cons_of_mem _ hct
    rcases candidate_cases ly c hcc with h | h
    · rw [h]
      exact fun _ => le_refl _
    · intro hd
      exfalso
      have hd' : c.date = first_sunday_of_advent ly := hd
      omega
  · intro x hx
    rcases foldl_insert_mem _ _ _ hx with h | h
    · simp at h
    · exact h

theorem generate_events_eq (ly : Int) :
    generate_events ly =
      ((candidate_events ly).foldl
        (insert_event (first_sunday_of_advent ly) (first_sunday_of_advent (ly + 1))) []).insertionSort
        date_le := rfl

theorem generate_events_perm (ly : Int) :
    (generate_events ly).Perm
      ((candidate_events ly).foldl
        (insert_event (first_sunday_of_advent ly) (first_sunday_of_advent (ly + 1))) []) := by
  rw [generate_events_eq]
  exact List.perm_insertionSort date_le _

theorem generate_events_sorted (ly : Int) :
    List.Sorted date_le (generate_events ly) := by
  rw [generate_events_eq]
  exact List.sorted_insertionSort date_le _

theorem generate_events_window (ly : Int) :
    ∀ x ∈ generate_events ly,
      first_sunday_of_advent ly ≤ x.date ∧ x.date < first_sunday_of_advent (ly + 1) := by
  intro x hx
  exact (events_map_spec ly).1 x ((generate_events_perm ly).mem_iff.1 hx)

theorem generate_events_mem_candidates (ly : Int) :
    ∀ x ∈ generate_events ly, x ∈ candidate_events ly := by
  intro x hx
  exact (events_map_spec ly).2.2.2 x ((generate_events_perm ly).mem_iff.1 hx)

theorem generate_events_dates_nodup (ly : Int) :
    ((generate_events ly).map Event.date).Nodup := by
  have hperm := (generate_events_perm ly).map Event.date
  exact hperm.nodup_iff.2 (events_map_spec ly).2.1

theorem pairwise_lt_of_sorted_nodup :
    ∀ (l : List Event), List.Pairwise date_le l → ((l.map Event.date).Nodup) →
      List.Pairwise (fun a b => a.date < b.date) l := by
  intro l
  induction l with
  | nil => intro _ _; exact List.Pairwise.nil
  | cons x xs ih =>
    intro hs hn
    rw [List.pairwise_cons] at hs ⊢
    rw [List.map_cons, List.nodup_cons] at hn
    refine ⟨fun y hy => ?_, ih hs.2 hn.2⟩
    have h1 : x.date ≤ y.date := hs.1 y hy
    have h2 : x.date ≠ y.date := fun hde => hn.1 (hde ▸ List.mem_map_of_mem Event.date hy)
    omega

/-- The output of `generate_events` has strictly increasing dates. -/
theorem generate_events_strict (ly : Int) :
    List.Pairwise (fun a b : Event => a.date < b.date) (generate_events ly) :=
  pairwise_lt_of_sorted_nodup _ (generate_events_sorted ly) (generate_events_dates_nodup ly)

/-- A sorted, date-nodup list whose minimum-dated member is `a` has `a` as
its head. -/
theorem sorted_head_eq (l : List Event) (hs : List.Pairwise date_le l)
    (hn : (l.map Event.date).Nodup) (a : Event) (ha : a ∈ l)
    (hmin : ∀ x ∈ l, a.date ≤ x.date) : l.head? = some a := by
  cases l with
  | nil => cases ha
  | cons x xs =>
    rcases List.mem_cons.1 ha with h | h
    · rw [h]
      rfl
    · exfalso
      rw [List.pairwise_cons] at hs
      rw [List.map_cons, List.nodup_cons] at hn
      have h1 : x.date ≤ a.date := hs.1 a h
      have h2 : a.date ≤ x.date := hmin x (List.mem_cons_self x xs)
      have h3 : x.date = a.date := by omega
      exact hn.1 (h3 ▸ List.mem_map_of_mem Event.date h)

/-- The first event of `generate_events` is the Advent event dated on the
first Sunday of Advent. -/
theorem generate_events_head (ly : Int) :
    (generate_events ly).head? = some
      { label := "advent", date := first_sunday_of_advent ly,
        altar_color := "purple", priority := 1 } := by
  have hspec := events_map_spec ly
  refine sorted_head_eq _ (generate_events_sorted ly) (generate_events_dates_nodup ly) _
    ((generate_events_perm ly).mem_iff.2 hspec.2.2.1) ?_
  intro x hx
  show first_sunday_of_advent ly ≤ x.date
  exact (generate_events_window ly x hx).1

/-! ### Labels and weekdays of the candidates -/

theorem append_ne_of_head (p x : String) (c₀ : Char) (t : List Char)
    (hp : p.data = c₀ :: t) (hc : c₀ ≠ 'c') : p ++ x ≠ "christmas" := by
  intro h
  have h2 := congrArg String.data h
  rw [String.data_append, hp] at h2
  have h3 : ("christmas").data = 'c' :: ['h','r','i','s','t','m','a','s'] := rfl
  rw [h3] at h2
  exact hc (List.cons.injEq _ _ _ _ ▸ h2).1

theorem daysFromSunday_add_mul7 (t : Int) (k : Int) (h : daysFromSunday t = 0) :
    daysFromSunday (t + 7 * k) = 0 := by
  unfold daysFromSunday at *
  omega

/-- For a non-negative liturgical year, every candidate is either the
fixed-date Christmas event or falls on a Sunday (and is not labeled
"christmas"). -/
theorem candidate_christmas_or_sunday (ly : Int) (hy : 0 ≤ ly) (c : Event)
    (hc : c ∈ candidate_events ly) :
    (c.label = "christmas" ∧ c.date = christmas_fixed ly) ∨
    (c.label ≠ "christmas" ∧ daysFromSunday c.date = 0) := by
  have hadv := first_sunday_of_advent_spec ly
  have hfs := first_sunday_on_or_after_spec (christmas_fixed ly + 1)
  have hfs6 := first_sunday_on_or_after_spec (toDay (ly + 1) 1 6)
  have heast : daysFromSunday (compute_easter (ly + 1)) = 0 :=
    easter_sunday (ly + 1) (by omega)
  have hcp : christmas_plus1 ly = first_sunday_on_or_after (christmas_fixed ly + 1) := rfl
  have hny : new_year_candidate ly = christmas_plus1 ly + 7 := rfl
  have hep := epiphany_start_cases ly
  unfold candidate_events at hc
  simp only [List.mem_append] at hc
  have hsun_ep : daysFromSunday (epiphany_start ly) = 0 := by
    rcases hep with ⟨_, he⟩ | ⟨_, he⟩
    · rw [he, hny, hcp]
      unfold daysFromSunday at *
      omega
    · rw [he]
      exact hfs6.2.2.1
  rcases hc with ((((((hc | hc) | hc) | hc) | hc) | hc) | hc)
  · obtain ⟨i, hi, rfl⟩ := List.mem_map.1 hc
    right
    constructor
    · show (if i = 0 then "advent" else "advent + " ++ toString i) ≠ "christmas"
      split_ifs
      · decide
      · exact append_ne_of_head _ _ 'a' _ rfl (by decide)
    · show daysFromSunday (first_sunday_of_advent ly + 7 * (i : Int)) = 0
      exact daysFromSunday_add_mul7 _ _ hadv.2.2.1
  · obtain ⟨p, hp, rfl⟩ := List.mem_map.1 hc
    split_ifs at hp with hcut
    · simp only [List.mem_append, List.mem_cons, List.mem_singleton,
        List.not_mem_nil, or_false] at hp
      rcases hp with (hp | hp) | hp
      · left
        rw [hp]
        exact ⟨rfl, rfl⟩
      · right
        rw [hp]
        constructor
        · show ("christmas + 1" : String) ≠ "christmas"
          decide
        · show daysFromSunday (christmas_plus1 ly) = 0
          rw [hcp]
          exact hfs.2.2.1
      · right
        rw [hp]
        constructor
        · show ("new year" : String) ≠ "christmas"
          decide
        · show daysFromSunday (new_year_candidate ly) = 0
          rw [hny, hcp]
          have h0 := hfs.2.2.1
          unfold daysFromSunday at *
          omega
    · simp only [List.mem_cons, List.mem_singleton, List.not_mem_nil, or_false] at hp
      rcases hp with hp | hp
      · left
        rw [hp]
        exact ⟨rfl, rfl⟩
      · right
        rw [hp]
        constructor
        · show ("christmas + 1" : String) ≠ "christmas"
          decide
        · show daysFromSunday (christmas_plus1 ly) = 0
          rw [hcp]
          exact hfs.2.2.1
  · obtain ⟨i, hi, rfl⟩ := List.mem_map.1 hc
    right
    constructor
    · show (if i = 0 then "epiphany" else "epiphany + " ++ toString i) ≠ "christmas"
      split_ifs
      · decide
      · exact append_ne_of_head _ _ 'e' _ rfl (by decide)
    · show daysFromSunday (epiphany_start ly + 7 * (i : Int)) = 0
      exact daysFromSunday_add_mul7 _ _ hsun_ep
  · obtain ⟨i, hi, rfl⟩ := List.mem_map.1 hc
    right
    constructor
    · show ("easter - " ++ toString (i + 1)) ≠ "christmas"
      exact append_ne_of_head _ _ 'e' _ rfl (by decide)
    · show daysFromSunday (compute_easter (ly + 1) - 7 * ((i + 1 : Nat) : Int)) = 0
      have := daysFromSunday_add_mul7 _ (-((i + 1 : Nat) : Int)) heast
      unfold daysFromSunday at *
      omega
  · obtain ⟨i, hi, rfl⟩ := List.mem_map.1 hc
    right
    constructor
    · show (if i = 0 then "easter" else "easter + " ++ toString i) ≠ "christmas"
      split_ifs
      · decide
      · exact append_ne_of_head _ _ 'e' _ rfl (by decide)
    · show daysFromSunday (compute_easter (ly + 1) + 7 * (i : Int)) = 0
      exact daysFromSunday_add_mul7 _ _ heast
  · unfold pentecost_events at hc
    simp only [List.mem_singleton] at hc
    subst hc
    right
    constructor
    · show ("pentecost" : String) ≠ "christmas"
      decide
    · show daysFromSunday (compute_easter (ly + 1) + 49) = 0
      exact daysFromSunday_add_mul7 _ 7 heast
  · obtain ⟨i, hi, rfl⟩ := List.mem_map.1 hc
    right
    constructor
    · show (if i = 0 then "trinity" else "trinity + " ++ toString i) ≠ "christmas"
      split_ifs
      · decide
      · exact append_ne_of_head _ _ 't' _ rfl (by decide)
    · show daysFromSunday (compute_easter (ly + 1) + 49 + 7 + 7 * (i : Int)) = 0
      have := daysFromSunday_add_mul7 _ (8 + (i : Int)) heast
      unfold daysFromSunday at *
      omega

/-! ### The resolver -/

/-- `find?` over a list with strictly decreasing dates returns the
maximum qualifying date. -/
theorem find_rev_max (T : Int) :
    ∀ (r : List Event), List.Pairwise (fun a b : Event => b.date < a.date) r →
      ∀ ev, r.find? (fun x => decide (x.date ≤ T)) = some ev →
        ev.date ≤ T ∧ ∀ x ∈ r, x.date ≤ T → x.date ≤ ev.date := by
  intro r
  induction r with
  | nil => intro _ ev h; cases h
  | cons c r ih =>
    intro hp ev hfind
    rw [List.pairwise_cons] at hp
    by_cases hc : c.date ≤ T
    · rw [List.find?_cons_of_pos _ (by simpa using hc)] at hfind
      obtain rfl : c = ev := by injection hfind
      refine ⟨hc, fun x hx hxT => ?_⟩
      rcases List.mem_cons.1 hx with rfl | hx
      · exact le_refl _
      · exact le_of_lt (hp.1 x hx)
    · rw [List.find?_cons_of_neg _ (by simpa using hc)] at hfind
      obtain ⟨hev, hmax⟩ := ih hp.2 ev hfind
      refine ⟨hev, fun x hx hxT => ?_⟩
      rcases List.mem_cons.1 hx with rfl | hx
      · exact absurd hxT hc
      · exact hmax x hx hxT

/-- The first Sunday of Advent of the computed liturgical year never lies
after a valid input date. -/
theorem advent_le_input (input : InputDate) (hv : valid_date input) :
    first_sunday_of_advent (compute_liturgical_year input) ≤ input.day := by
  simp only [compute_liturgical_year]
  split_ifs with h
  · exact h
  · have h1 := first_sunday_of_advent_spec (input.y - 1)
    have h2 := toDay_nov27 (input.y - 1)
    have h3 := toDay_nov27_lt_jan1 input.y
    have h4 := toDay_jan1_le input hv
    omega

theorem nodup_dates_eq {m : List Event} (hnd : (m.map Event.date).Nodup) {a b : Event}
    (ha : a ∈ m) (hb : b ∈ m) (hd : a.date = b.date) : a = b := by
  induction m with
  | nil => cases ha
  | cons x t ih =>
    rw [List.map_cons, List.nodup_cons] at hnd
    rcases List.mem_cons.1 ha with rfl | ha' <;> rcases List.mem_cons.1 hb with rfl | hb'
    · rfl
    · exact absurd (hd ▸ List.mem_map_of_mem Event.date hb') hnd.1
    · exact absurd (hd ▸ List.mem_map_of_mem Event.date ha') hnd.1
    · exact ih hnd.2 ha' hb'

/-! ### The claims -/

set_option maxRecDepth 10000 in
set_option maxHeartbeats 2000000 in
/-- Claim C1, counterexample: on input 08/02/2025 (a Saturday) the resolver
does not use "epiphany + 5" and does not return the custom readings; it
falls back inexactly to "epiphany + 4" of 02/02/2025 (day count 20121) with
synthesized placeholder readings. -/
theorem C1_counterexample :
    resolve { y := 2025, m := 2, d := 8 } = ResolveResult.inexactMatch 2024 1
      { label := "epiphany + 4", date := 20121, altar_color := "green", priority := 3 }
      (default_readings "epiphany + 4" 1) ∧
    "epiphany + 4" ≠ "epiphany + 5" ∧
    default_readings "epiphany + 4" 1 ≠
      { old_testament := "Jer 17:5-10", lection := "Col 3:12-17",
        gospel := "Mat 13:31-35", preaching := "Mat 13:24-30" } :=
  ⟨by rfl, by decide, by decide⟩

set_option maxRecDepth 10000 in
set_option maxHeartbeats 2000000 in
/-- Claim C1 (amended): for input 08/02/2025 the resolver computes
liturgical year 2024 and reading set 1, resolves inexactly to the event
labeled "epiphany + 4" whose own date is 02/02/2025 (day count 20121), and
synthesizes the four placeholder readings (the custom table is not
consulted on the inexact path). -/
theorem C1_theorem :
    compute_liturgical_year { y := 2025, m := 2, d := 8 } = 2024 ∧
    compute_set 2024 = 1 ∧
    resolve { y := 2025, m := 2, d := 8 } = ResolveResult.inexactMatch 2024 1
      { label := "epiphany + 4", date := 20121, altar_color := "green", priority := 3 }
      (default_readings "epiphany + 4" 1) ∧
    (20121 : Int) = toDay 2025 2 2 :=
  ⟨by rfl, by rfl, by rfl, by rfl⟩

set_option maxRecDepth 10000 in
set_option maxHeartbeats 2000000 in
/-- Claim C2, counterexample: on input 10/02/2025 the resolver falls back
inexactly to "epiphany + 5" with reading set 1; the custom table has an
entry for that pair, yet the returned readings are the placeholders, not
the custom strings. -/
theorem C2_counterexample :
    resolve { y := 2025, m := 2, d := 10 } = ResolveResult.inexactMatch 2024 1
      { label := "epiphany + 5", date := 20128, altar_color := "green", priority := 3 }
      (default_readings "epiphany + 5" 1) ∧
    lookup_custom "epiphany + 5" 1 = some
      { old_testament := "Jer 17:5-10", lection := "Col 3:12-17",
        gospel := "Mat 13:31-35", preaching := "Mat 13:24-30" } ∧
    default_readings "epiphany + 5" 1 ≠
      { old_testament := "Jer 17:5-10", lection := "Col 3:12-17",
        gospel := "Mat 13:31-35", preaching := "Mat 13:24-30" } :=
  ⟨by rfl, by rfl, by decide⟩

/-- Claim C2 (amended): whenever the resolver reports an inexact match, the
selected event is a generated event of the computed liturgical year, it is
the latest event with date ≤ the input date, no generated event matches the
input date exactly, the result carries that event (hence its own date), and
the readings are always the synthesized placeholders for (label, set) — the
custom-override table is never consulted on the inexact path. -/
theorem C2_theorem (input : InputDate) (lit set : Int) (ev : Event) (r : Readings)
    (h : resolve input = ResolveResult.inexactMatch lit set ev r) :
    lit = compute_liturgical_year input ∧
    set = compute_set (compute_liturgical_year input) ∧
    ev ∈ generate_events (compute_liturgical_year input) ∧
    ev.date ≤ input.day ∧
    (∀ x ∈ generate_events (compute_liturgical_year input), x.date ≠ input.day) ∧
    (∀ x ∈ generate_events (compute_liturgical_year input),
      x.date ≤ input.day → x.date ≤ ev.date) ∧
    r = default_readings ev.label set := by
  unfold resolve at h
  dsimp only at h
  split at h
  · exact absurd h (by simp)
  · rename_i hnone
    split at h
    · rename_i ev1 hfind
      rw [ResolveResult.inexactMatch.injEq] at h
      obtain ⟨h1, h2, h3, h4⟩ := h
      subst h1
      subst h2
      subst h3
      subst h4
      have hmem : ev1 ∈ generate_events (compute_liturgical_year input) :=
        List.mem_reverse.1 (List.mem_of_find?_eq_some hfind)
      have hle : ev1.date ≤ input.day := by
        have hp := List.find?_some hfind
        simpa using hp
      have hnone' := List.find?_eq_none.1 hnone
      have hmax := find_rev_max input.day _
        (List.pairwise_reverse.mpr (generate_events_strict (compute_liturgical_year input)))
        ev1 hfind
      refine ⟨rfl, rfl, hmem, hle, ?_, ?_, rfl⟩
      · intro x hx
        have := hnone' x hx
        simpa using this
      · intro x hx hxle
        exact hmax.2 x (List.mem_reverse.2 hx) hxle
    · exact absurd h (by simp)

set_option maxRecDepth 10000 in
set_option maxHeartbeats 2000000 in
/-- Claim C2, witness: the amended theorem applied to the concrete inexact
query 10/02/2025, selecting the "epiphany + 5" event of 09/02/2025. -/
theorem C2_witness :
    ({ label := "epiphany + 5", date := 20128, altar_color := "green",
       priority := 3 } : Event) ∈
      generate_events (compute_liturgical_year { y := 2025, m := 2, d := 10 }) ∧
    (20128 : Int) ≠ InputDate.day { y := 2025, m := 2, d := 10 } := by
  have h := C2_theorem { y := 2025, m := 2, d := 10 } 2024 1
    { label := "epiphany + 5", date := 20128, altar_color := "green", priority := 3 }
    (default_readings "epiphany + 5" 1) (by rfl)
  exact ⟨h.2.2.1, h.2.2.2.2.1 _ h.2.2.1⟩

/-- Claim C3, counterexample: the insert-or-override operation applied to an
occupied date with an equal-priority candidate keeps the existing event; it
does not yield the newly inserted one. -/
theorem C3_counterexample :
    insert_event 0 100
        [{ label := "first", date := 5, altar_color := "white", priority := 3 }]
        { label := "second", date := 5, altar_color := "red", priority := 3 } =
      [{ label := "first", date := 5, altar_color := "white", priority := 3 }] ∧
    ([{ label := "first", date := 5, altar_color := "white", priority := 3 }] :
        List Event) ≠
      [{ label := "second", date := 5, altar_color := "red", priority := 3 }] :=
  ⟨by rfl, by decide⟩

/-- Claim C3 (amended): on a date collision inside the window, a strictly
higher-priority candidate replaces the occupant, and an equal- or
lower-priority candidate leaves the map unchanged (the earlier-inserted
event wins ties, not the later one). -/
theorem C3_theorem (s e : Int) (m : List Event) (ev ex : Event)
    (hex : ex ∈ m) (hd : ex.date = ev.date) (hnd : (m.map Event.date).Nodup)
    (h1 : s ≤ ev.date) (h2 : ev.date < e) :
    (ex.priority < ev.priority → ev ∈ insert_event s e m ev) ∧
    (¬ ex.priority < ev.priority → insert_event s e m ev = m) := by
  constructor
  · intro hp
    refine insert_event_wins h1 h2 ?_
    intro x hx hxd
    have hxe : x = ex := nodup_dates_eq hnd hx hex (by omega)
    rw [hxe]
    exact hp
  · intro hp
    unfold insert_event
    rw [if_pos ⟨h1, h2⟩]
    have hocc : (m.any fun x => x.date == ev.date) = true :=
      List.any_eq_true.2 ⟨ex, hex, by simpa using hd⟩
    rw [if_pos hocc]
    have hid : ∀ x ∈ m, (if x.date = ev.date ∧ x.priority < ev.priority then ev else x) = x := by
      intro x hx
      rw [if_neg]
      rintro ⟨hxd, hxp⟩
      have hxe : x = ex := nodup_dates_eq hnd hx hex (by omega)
      rw [hxe] at hxp
      exact hp hxp
    exact (List.map_congr_left hid).trans (List.map_id _)

/-- Claim C3, witness: the amended theorem applied to a one-entry map with
a higher-priority candidate at the occupied date. -/
theorem C3_witness :
    ({ label := "second", date := 5, altar_color := "red", priority := 4 } : Event) ∈
      insert_event 0 100
        [{ label := "first", date := 5, altar_color := "white", priority := 3 }]
        { label := "second", date := 5, altar_color := "red", priority := 4 } := by
  have h := C3_theorem 0 100
    [{ label := "first", date := 5, altar_color := "white", priority := 3 }]
    { label := "second", date := 5, altar_color := "red", priority := 4 }
    { label := "first", date := 5, altar_color := "white", priority := 3 }
    (by decide) (by decide) (by decide) (by decide) (by decide)
  exact h.1 (by decide)

/-- Claim C4 (confirmed): the "new year" candidate is one week after
"christmas + 1"; it is pushed as an event exactly when it is on or after
January 6 of the following year (the comparison is ≥); when withheld, the
Epiphany series starts exactly at the withheld candidate, and otherwise at
the first Sunday on or after January 6 — so exactly one of {"new year" is
emitted, the candidate was withheld and Epiphany starts on it} holds. -/
theorem C4_theorem (Y : Int) :
    new_year_candidate Y = christmas_plus1 Y + 7 ∧
    ((∃ ev ∈ christmas_events Y, ev.label = "new year" ∧
        ev.date = new_year_candidate Y) ↔
      new_year_threshold Y ≤ new_year_candidate Y) ∧
    (new_year_candidate Y < new_year_threshold Y →
      epiphany_start Y = new_year_candidate Y) ∧
    (new_year_threshold Y ≤ new_year_candidate Y →
      epiphany_start Y = first_sunday_on_or_after (toDay (Y + 1) 1 6)) ∧
    Xor' (∃ ev ∈ christmas_events Y, ev.label = "new year" ∧
        ev.date = new_year_candidate Y)
      (new_year_candidate Y < new_year_threshold Y ∧
        epiphany_start Y = new_year_candidate Y) := by
  have hiff : (∃ ev ∈ christmas_events Y, ev.label = "new year" ∧
      ev.date = new_year_candidate Y) ↔
      new_year_threshold Y ≤ new_year_candidate Y := by
    unfold christmas_events
    split_ifs with hcut
    · refine ⟨fun _ => by omega, fun _ => ?_⟩
      refine ⟨_, List.mem_map.2 ⟨("new year", new_year_candidate Y), ?_, rfl⟩, rfl, rfl⟩
      simp
    · refine ⟨fun hex => ?_, fun hge => absurd hge (by omega)⟩
      obtain ⟨ev, hev, hlab, _⟩ := hex
      obtain ⟨p, hp, rfl⟩ := List.mem_map.1 hev
      simp only [List.mem_cons, List.mem_singleton, List.not_mem_nil, or_false] at hp
      rcases hp with hp | hp
      · rw [hp] at hlab
        have hlab2 : ("christmas" : String) = "new year" := hlab
        exact absurd hlab2 (by decide)
      · rw [hp] at hlab
        have hlab2 : ("christmas + 1" : String) = "new year" := hlab
        exact absurd hlab2 (by decide)
  have hstart := epiphany_start_cases Y
  refine ⟨rfl, hiff, ?_, ?_, ?_⟩
  · intro hlt
    rcases hstart with ⟨_, he⟩ | ⟨hge, _⟩
    · exact he
    · omega
  · intro hge
    rcases hstart with ⟨hlt, _⟩ | ⟨_, he⟩
    · omega
    · exact he
  · by_cases hcut : new_year_threshold Y ≤ new_year_candidate Y
    · exact Or.inl ⟨hiff.2 hcut, fun hw => by omega⟩
    · refine Or.inr ⟨⟨by omega, ?_⟩, fun hex => hcut (hiff.1 hex)⟩
      rcases hstart with ⟨_, he⟩ | ⟨hge, _⟩
      · exact he
      · omega

/-- Claim C5 (confirmed): for every liturgical year the generated list has
strictly increasing (hence pairwise distinct) dates, every date lies in
`[first_sunday_of_advent Y, first_sunday_of_advent (Y+1))`, and the first
element is the Advent event dated on the first Sunday of Advent. -/
theorem C5_theorem (Y : Int) :
    List.Pairwise (fun a b : Event => a.date < b.date) (generate_events Y) ∧
    (∀ ev ∈ generate_events Y,
      first_sunday_of_advent Y ≤ ev.date ∧ ev.date < first_sunday_of_advent (Y + 1)) ∧
    (generate_events Y).head? = some
      { label := "advent", date := first_sunday_of_advent Y,
        altar_color := "purple", priority := 1 } :=
  ⟨generate_events_strict Y, generate_events_window Y, generate_events_head Y⟩

/-- Claim C6, counterexample: for year −1 the truncating `i32` arithmetic
leaves the classical window: the computed date is 20 March, before
March 22, and it is not a Sunday. -/
theorem C6_counterexample :
    compute_easter_md (-1) = (3, 20) ∧
    compute_easter (-1) < toDay (-1) 3 22 ∧
    daysFromSunday (compute_easter (-1)) ≠ 0 :=
  ⟨by rfl, by decide, by decide⟩

/-- Claim C6 (amended): for every year Y ≥ 0 the Meeus/Jones/Butcher
computation returns a well-defined month/day (March 22–31 or April 1–25),
its date lies between March 22 and April 25 inclusive, and its weekday is
Sunday. -/
theorem C6_theorem (Y : Int) (hY : 0 ≤ Y) :
    ((compute_easter_md Y).1 = 3 ∧ 22 ≤ (compute_easter_md Y).2 ∧
        (compute_easter_md Y).2 ≤ 31 ∨
      (compute_easter_md Y).1 = 4 ∧ 1 ≤ (compute_easter_md Y).2 ∧
        (compute_easter_md Y).2 ≤ 25) ∧
    toDay Y 3 22 ≤ compute_easter Y ∧ compute_easter Y ≤ toDay Y 4 25 ∧
    daysFromSunday (compute_easter Y) = 0 :=
  ⟨easter_md_range Y hY, (easter_range Y hY).1, (easter_range Y hY).2, easter_sunday Y hY⟩

/-- Claim C6, witness: the amended theorem at year 2025 (Easter Sunday,
20 April 2025). -/
theorem C6_witness :
    toDay 2025 3 22 ≤ compute_easter 2025 ∧ compute_easter 2025 ≤ toDay 2025 4 25 ∧
    daysFromSunday (compute_easter 2025) = 0 := by
  have h := C6_theorem 2025 (by norm_num)
  exact ⟨h.2.1, h.2.2.1, h.2.2.2⟩

/-- Claim C7 (confirmed): the first Sunday of Advent is the first Sunday on
or after November 21: it is a Sunday, lies between November 21 and
November 27 inclusive, and no earlier date on or after November 21 is a
Sunday. -/
theorem C7_theorem (Y : Int) :
    daysFromSunday (first_sunday_of_advent Y) = 0 ∧
    toDay Y 11 21 ≤ first_sunday_of_advent Y ∧
    first_sunday_of_advent Y ≤ toDay Y 11 27 ∧
    ∀ u : Int, toDay Y 11 21 ≤ u → u < first_sunday_of_advent Y →
      daysFromSunday u ≠ 0 := by
  have h := first_sunday_of_advent_spec Y
  have h27 := toDay_nov27 Y
  exact ⟨h.2.2.1, h.1, by omega, h.2.2.2⟩

/-- Claim C8 (confirmed): `compute_set` is `((L − 2024) mod 3) + 1` with
the non-negative Euclidean modulo, always lands in {1, 2, 3}, is periodic
with period 3, and maps 2024 to 1. -/
theorem C8_theorem (L : Int) :
    compute_set L = (L - 2024) % 3 + 1 ∧
    (compute_set L = 1 ∨ compute_set L = 2 ∨ compute_set L = 3) ∧
    compute_set (L + 3) = compute_set L ∧
    compute_set 2024 = 1 := by
  refine ⟨rfl, ?_, ?_, by decide⟩
  · unfold compute_set
    omega
  · unfold compute_set
    omega

/-- Claim C9 (confirmed): for every valid input date the computed
liturgical year's first Advent Sunday is on or before the input, the
generated list contains its first event dated on that Sunday (hence an
event with date ≤ the input), and the resolver's "no event found" outcome
is unreachable. -/
theorem C9_theorem (input : InputDate) (hv : valid_date input) :
    first_sunday_of_advent (compute_liturgical_year input) ≤ input.day ∧
    (∃ ev ∈ generate_events (compute_liturgical_year input),
      ev.date = first_sunday_of_advent (compute_liturgical_year input) ∧
      ev.date ≤ input.day) ∧
    ∀ L : Int, resolve input ≠ ResolveResult.notFound L := by
  have hadv := advent_le_input input hv
  have hhead := generate_events_head (compute_liturgical_year input)
  have hmem : ({ label := "advent",
                 date := first_sunday_of_advent (compute_liturgical_year input),
                 altar_color := "purple", priority := 1 } : Event) ∈
      generate_events (compute_liturgical_year input) :=
    List.mem_of_mem_head? (Option.mem_def.2 hhead)
  refine ⟨hadv, ⟨_, hmem, rfl, hadv⟩, ?_⟩
  intro L hL
  unfold resolve at hL
  dsimp only at hL
  split at hL
  · exact absurd hL (by simp)
  · split at hL
    · exact absurd hL (by simp)
    · rename_i hfnone
      rw [List.find?_eq_none] at hfnone
      exact hfnone _ (List.mem_reverse.2 hmem) (decide_eq_true hadv)

/-- Claim C9, witness: the theorem at the concrete valid date 01/07/2026. -/
theorem C9_witness :
    valid_date { y := 2026, m := 7, d := 1 } ∧
    resolve { y := 2026, m := 7, d := 1 } ≠ ResolveResult.notFound 2025 := by
  have hv : valid_date { y := 2026, m := 7, d := 1 } := by decide
  exact ⟨hv, (C9_theorem { y := 2026, m := 7, d := 1 } hv).2.2 2025⟩

set_option maxRecDepth 10000 in
set_option maxHeartbeats 2000000 in
/-- Claim C10, counterexample: for liturgical year −2 the generated list
contains "easter - 9" (not labeled "christmas") on day −719878, which is a
Saturday, because the truncating arithmetic puts Easter of year −1 on a
Saturday. -/
theorem C10_counterexample :
    ({ label := "easter - 9", date := -719878, altar_color := "green",
       priority := 4 } : Event) ∈ generate_events (-2) ∧
    daysFromSunday (-719878) ≠ 0 ∧ "easter - 9" ≠ "christmas" :=
  ⟨by decide, by decide, by decide⟩

/-- Claim C10 (amended): for every liturgical year Y ≥ 0, every generated
event not labeled "christmas" falls on a Sunday, and every generated event
labeled "christmas" has date December 25 of Y. -/
theorem C10_theorem (Y : Int) (hY : 0 ≤ Y) :
    ∀ ev ∈ generate_events Y,
      (ev.label ≠ "christmas" → daysFromSunday ev.date = 0) ∧
      (ev.label = "christmas" → ev.date = toDay Y 12 25) := by
  intro ev hev
  have hc := candidate_christmas_or_sunday Y hY ev (generate_events_mem_candidates Y ev hev)
  rcases hc with ⟨hl, hdate⟩ | ⟨hl, hs⟩
  · exact ⟨fun hne => absurd hl hne, fun _ => hdate⟩
  · exact ⟨fun _ => hs, fun heq => absurd heq hl⟩

set_option maxRecDepth 10000 in
set_option maxHeartbeats 2000000 in
/-- Claim C10, witness: the amended theorem at year 2024 applied to the
Advent head event (24 November 2024, day count 20051). -/
theorem C10_witness :
    daysFromSunday 20051 = 0 := by
  have h := C10_theorem 2024 (by norm_num)
    { label := "advent", date := 20051, altar_color := "purple", priority := 1 } (by decide)
  exact h.1 (by decide)

end LitCal
